import Mathlib

/-!
Verification of the akbild mensa menu parser (`main.py`) against its
natural-language specification.

The development is a shallow embedding of the menu-extraction engine:

* strings are `List Char` (one entry per Unicode code point, matching
  Python `str` indexing);
* parsed HTML trees are the inductive type `Node` (tag name plus ordered
  children, or a text node), mirroring the BeautifulSoup tree after the
  points of the program relevant to the claims;
* Python's `datetime.date` is the structure `PyDate` with the validity
  check and proleptic-Gregorian ordinal used by CPython;
* fallible code (`date(...)` construction, the week-info resolver, the
  feed-assembly fragment around the Wochenteller lookup) returns
  `Except String _`;
* the concrete regular expressions of the source are compiled by hand
  into scanning functions that reproduce Python `re` semantics (leftmost
  match, ordered alternation, greedy quantifiers with backtracking) for
  the patterns in question.

Two deliberate approximations, noted where used: Python's Unicode-aware
`\w` is modelled as ASCII alphanumerics, underscore, and any non-ASCII
code point (the source's German text only ever places letters there),
and `re.IGNORECASE` folds ASCII letters only.
-/

/-! ## Character classes and basic string utilities -/

/-- Python `\s` and `str.strip` whitespace, restricted to the code points
that can occur in the scraped text (ASCII whitespace and NBSP). -/
def pyIsSpace (c : Char) : Bool :=
  c = ' ' || c = '\t' || c = '\n' || c = '\r' || c = '\x0b' || c = '\x0c' || c = '\xa0'

/-- Python `\w` (word character), approximated: ASCII alphanumerics,
underscore, and every non-ASCII code point (German letters). -/
def pyIsWordChar (c : Char) : Bool :=
  c.isAlphanum || c = '_' || c.val ≥ 0x80

/-- ASCII `[A-Z]`, as used by the allergen-code regex. -/
def isUpperAZ (c : Char) : Bool :=
  'A' ≤ c && c ≤ 'Z'

/-- ASCII `\d`. -/
def isDigitCh (c : Char) : Bool :=
  '0' ≤ c && c ≤ '9'

/-- Numeric value of an ASCII digit. -/
def digitVal (c : Char) : Nat :=
  c.toNat - 48

/-- ASCII-only case folding, modelling `re.IGNORECASE` on the ASCII
patterns of the source. -/
def asciiLower (c : Char) : Char :=
  if 'A' ≤ c && c ≤ 'Z' then Char.ofNat (c.toNat + 32) else c

/-- Python `str.strip()`. -/
def stripL (l : List Char) : List Char :=
  ((l.dropWhile pyIsSpace).reverse.dropWhile pyIsSpace).reverse

/-- String version of `stripL`. -/
def stripStr (s : String) : String :=
  String.mk (stripL s.data)

/-- Python's `in` on strings: `substr needle hay` iff `needle` occurs
contiguously in `hay`. -/
def substr (needle : List Char) : List Char → Bool
  | [] => needle.isEmpty
  | c :: t => needle.isPrefixOf (c :: t) || substr needle t

/-- Case-insensitive (ASCII fold) test that `pat` is a prefix of `l`;
`pat` is a lowercase pattern literal. -/
def ciPrefixB : List Char → List Char → Bool
  | [], _ => true
  | _ :: _, [] => false
  | a :: as, b :: bs => asciiLower a = asciiLower b && ciPrefixB as bs

/-- Python `str.split(",")`. -/
def splitOnComma : List Char → List (List Char)
  | [] => [[]]
  | ',' :: t => [] :: splitOnComma t
  | c :: t =>
    match splitOnComma t with
    | h :: rest => (c :: h) :: rest
    | [] => [[c]]

/-- Split on newline characters, Python `str.split("\n")`. -/
def splitLinesNl : List Char → List (List Char)
  | [] => [[]]
  | '\n' :: t => [] :: splitLinesNl t
  | c :: t =>
    match splitLinesNl t with
    | h :: rest => (c :: h) :: rest
    | [] => [[c]]

/-- Model of `re.sub(r"\s+", " ", _)`: collapse every whitespace run to one
space.  The boolean argument records whether the previous character was
part of a whitespace run. -/
def collapseWsGo : Bool → List Char → List Char
  | _, [] => []
  | inWs, c :: t =>
    if pyIsSpace c then
      if inWs then collapseWsGo true t else ' ' :: collapseWsGo true t
    else c :: collapseWsGo false t

/-- Model of `re.sub(r"\s+", " ", l)`. -/
def collapseWsTo1 (l : List Char) : List Char :=
  collapseWsGo false l

/-! ## Meal text parser (`_parse_mealname`, main.py lines 251-279) -/

/-- Category constants of the source. -/
def NON_VEGETERIAN : String := "Nicht Vegetarisch"

def VEGETERIAN : String := "Vegetarisch"

def VEGAN : String := "Vegan"

/-- Model of `meal.replace("\xa0", " ")`. -/
def replaceNbsp (l : List Char) : List Char :=
  l.map fun c => if c = '\xa0' then ' ' else c

/-- Word boundary `\b` directly before a word character: satisfied at
the start of the string or after a non-word character. -/
def boundaryBeforeWord : Option Char → Bool
  | none => true
  | some p => !pyIsWordChar p

/-- Word boundary `\b` directly after a word character: satisfied at the
end of the string or before a non-word character. -/
def boundaryAfterWord : List Char → Bool
  | [] => true
  | c :: _ => !pyIsWordChar c

/-- The tail of `(?:,\s*[A-Z])*\s*$` of the allergen regex
`\b([A-Z](?:,\s*[A-Z])*)\s*$`, with the greedy repetition's
backtracking made explicit: first try to consume one more `,\s*[A-Z]`
unit, and only when the extended attempt fails fall back on checking
`\s*$` (the rest of the string is whitespace).  `acc` collects the raw
characters of group 1 matched so far; the fuel is bounded by the input
length (each unit consumes at least two characters). -/
def unitsParse : Nat → List Char → List Char → Option (List Char)
  | fuel + 1, ',' :: r1, acc =>
    (match r1.dropWhile pyIsSpace with
     | u :: r3 =>
       if isUpperAZ u then
         match unitsParse fuel r3 (acc ++ ',' :: r1.takeWhile pyIsSpace ++ [u]) with
         | some res => some res
         | none => if (',' :: r1).all pyIsSpace then some acc else none
       else if (',' :: r1).all pyIsSpace then some acc else none
     | [] => if (',' :: r1).all pyIsSpace then some acc else none)
  | _, rem, acc => if rem.all pyIsSpace then some acc else none

/-- Scanner for `re.search(r"\b([A-Z](?:,\s*[A-Z])*)\s*$", _)`: walk the
string left to right (leftmost match wins); at every uppercase letter
preceded by a word boundary, attempt the rest of the pattern.  Returns
`(text before the match, raw text of group 1)`. -/
def allergenScan : Option Char → List Char → List Char → Option (List Char × List Char)
  | _, _, [] => none
  | prev, revPre, c :: t =>
    if boundaryBeforeWord prev && isUpperAZ c then
      match unitsParse t.length t [c] with
      | some raw => some (revPre.reverse, raw)
      | none => allergenScan (some c) (c :: revPre) t
    else allergenScan (some c) (c :: revPre) t

/-- Model of `re.search(r"\b([A-Z](?:,\s*[A-Z])*)\s*$", meal)`. -/
def allergenSearch (l : List Char) : Option (List Char × List Char) :=
  allergenScan none [] l

/-- The three dietary labels, in the source's alternation order
`(vegan|vegetarisch|vegan/vegetarisch)`. -/
def categoryLabels : List (List Char) :=
  ["vegan".data, "vegetarisch".data, "vegan/vegetarisch".data]

/-- At a position just after `(`, try each alternation branch in order;
the branch must be followed by `)`. -/
def tryLabelsAt (l : List Char) : Option (List Char) :=
  (categoryLabels.filter fun lab =>
    ciPrefixB lab l && (match l.drop lab.length with
                        | ')' :: _ => true
                        | _ => false)).head?

/-- Model of `re.search(r"\((vegan|vegetarisch|vegan/vegetarisch)\)", _, re.IGNORECASE)`:
returns the lowercased matched label (`group(1).lower()`). -/
def categoryScan : List Char → Option (List Char)
  | [] => none
  | '(' :: t =>
    (match tryLabelsAt t with
     | some lab => some lab
     | none => categoryScan t)
  | _ :: t => categoryScan t

/-- Suffix of the input after the first `)`, provided no newline occurs
before it (`.` of the pattern does not match `\n`). -/
def findCloseSplit : List Char → Option (List Char)
  | [] => none
  | ')' :: t => some t
  | '\n' :: _ => none
  | _ :: t => findCloseSplit t

/-- Model of `re.sub(r"\s*\(.*?\)", "", meal)`: remove every parenthesized group
together with the whitespace in front of it.  A match starts at a
maximal whitespace run that ends at `(` (or at `(` itself) and extends
lazily to the first `)` with no intervening newline.  Fuel is bounded
by the input length. -/
def removeParensF : Nat → List Char → List Char
  | 0, l => l
  | _ + 1, [] => []
  | fuel + 1, c :: t =>
    match (c :: t).dropWhile pyIsSpace with
    | '(' :: r2 =>
      (match findCloseSplit r2 with
       | some after => removeParensF fuel after
       | none => c :: removeParensF fuel t)
    | _ => c :: removeParensF fuel t

/-- Model of `re.sub(r"\s*\(.*?\)", "", l)`. -/
def removeParens (l : List Char) : List Char :=
  removeParensF l.length l

/-- Second half of `_parse_mealname`: after allergen extraction, match
and remove the dietary label.  `m1` is the working string, `alls` the
already-extracted allergen codes. -/
def parseMealAfterAllergen (m1 : List Char) (alls : List String) :
    String × String × List String :=
  match categoryScan m1 with
  | some lab =>
    (String.mk (stripL (removeParens m1)),
     if "vegan".data.isPrefixOf lab then VEGAN else VEGETERIAN,
     alls)
  | none => (String.mk m1, NON_VEGETERIAN, alls)

/-- Model of `_parse_mealname` (main.py lines 251-279): returns
`(name, category, allergen codes)`. -/
def parseMealname (meal : String) : String × String × List String :=
  match allergenSearch (stripL (replaceNbsp meal.data)) with
  | some (pre, raw) =>
    parseMealAfterAllergen (stripL pre)
      ((splitOnComma (raw.filter fun c => c ≠ ' ')).map String.mk)
  | none => parseMealAfterAllergen (stripL (replaceNbsp meal.data)) []

/-! ## Calendar dates (`datetime.date`) -/

/-- A Python `datetime.date` value (year, month, day). -/
structure PyDate where
  year : Nat
  month : Nat
  day : Nat
deriving DecidableEq, Repr

/-- Gregorian leap year, as in CPython's `datetime`. -/
def isLeap (y : Nat) : Bool :=
  y % 4 = 0 && (y % 100 ≠ 0 || y % 400 = 0)

/-- 1 in a leap year, 0 otherwise. -/
def leapDay (y : Nat) : Nat :=
  if isLeap y then 1 else 0

/-- Days in a month of a given year (`datetime._days_in_month`). -/
def daysInMonth (y m : Nat) : Nat :=
  match m with
  | 1 => 31 | 2 => 28 + leapDay y | 3 => 31 | 4 => 30
  | 5 => 31 | 6 => 30 | 7 => 31 | 8 => 31
  | 9 => 30 | 10 => 31 | 11 => 30 | 12 => 31
  | _ => 0

/-- Days in the given year coming strictly before month `m`
(`datetime._days_before_month`). -/
def daysBeforeMonth (y m : Nat) : Nat :=
  match m with
  | 1 => 0 | 2 => 31 | 3 => 59 + leapDay y | 4 => 90 + leapDay y
  | 5 => 120 + leapDay y | 6 => 151 + leapDay y | 7 => 181 + leapDay y
  | 8 => 212 + leapDay y | 9 => 243 + leapDay y | 10 => 273 + leapDay y
  | 11 => 304 + leapDay y | 12 => 334 + leapDay y
  | _ => 0

/-- Days before January 1 of year `y` in the proleptic Gregorian
calendar (`datetime._days_before_year`). -/
def daysBeforeYear (y : Nat) : Nat :=
  365 * (y - 1) + (y - 1) / 4 + (y - 1) / 400 - (y - 1) / 100

/-- Proleptic Gregorian ordinal; `toOrdinal ⟨1, 1, 1⟩ = 1`
(`date.toordinal`). -/
def toOrdinal (d : PyDate) : Nat :=
  daysBeforeYear d.year + daysBeforeMonth d.year d.month + d.day

/-- The range check performed by the `date(year, month, day)`
constructor. -/
def ValidPyDate (d : PyDate) : Prop :=
  1 ≤ d.year ∧ d.year ≤ 9999 ∧ 1 ≤ d.month ∧ d.month ≤ 12 ∧
    1 ≤ d.day ∧ d.day ≤ daysInMonth d.year d.month

instance (d : PyDate) : Decidable (ValidPyDate d) := by
  unfold ValidPyDate; infer_instance

/-- Model of `date(year, month, day)`: a valid date, or the `ValueError` the
constructor raises. -/
def mkDate (y m d : Nat) : Except String PyDate :=
  if ValidPyDate ⟨y, m, d⟩ then .ok ⟨y, m, d⟩
  else .error "ValueError: day is out of range for month"

/-- Model of `date.weekday()`: 0 = Monday.  `date(1, 1, 1)` is a Monday. -/
def pyWeekday (d : PyDate) : Nat :=
  (toOrdinal d - 1) % 7

/-- The calendar day before `d` (only meaningful for valid dates after
the epoch). -/
def prevDay (d : PyDate) : PyDate :=
  if 2 ≤ d.day then ⟨d.year, d.month, d.day - 1⟩
  else if 2 ≤ d.month then ⟨d.year, d.month - 1, daysInMonth d.year (d.month - 1)⟩
  else ⟨d.year - 1, 12, 31⟩

/-- Model of `d - timedelta(days=k)`. -/
def subDays (d : PyDate) : Nat → PyDate
  | 0 => d
  | k + 1 => subDays (prevDay d) k

/-! ## Date Resolver (`_get_monday_from_week_info_str`, main.py lines 281-354) -/

/-- Exactly four ASCII digits (`\d{4}`); anything may follow. -/
def year4 : List Char → Option Nat
  | a :: b :: c :: d :: _ =>
    if isDigitCh a && isDigitCh b && isDigitCh c && isDigitCh d then
      some (digitVal a * 1000 + digitVal b * 100 + digitVal c * 10 + digitVal d)
    else none
  | _ => none

/-- The `(\d{1,2})\.(\d{4})`-tail of the step-1 pattern: the month (greedy
two digits, backtracking to one) followed by `.` and a four-digit
year. -/
def monthYear1 : List Char → Option (Nat × Nat)
  | a :: '.' :: rest =>
    if isDigitCh a then (year4 rest).map fun y => (digitVal a, y) else none
  | _ => none

def monthYear : List Char → Option (Nat × Nat)
  | a :: b :: '.' :: rest =>
    if isDigitCh a && isDigitCh b then
      match year4 rest with
      | some y => some (digitVal a * 10 + digitVal b, y)
      | none => monthYear1 (a :: b :: '.' :: rest)
    else monthYear1 (a :: b :: '.' :: rest)
  | l => monthYear1 l

/-- Attempt of `(\d{1,2})\.(\d{1,2})\.(\d{4})` anchored at the current
position (day greedy two digits, backtracking to one). -/
def matchDMY1 : List Char → Option (Nat × Nat × Nat)
  | a :: '.' :: rest =>
    if isDigitCh a then (monthYear rest).map fun my => (digitVal a, my.1, my.2) else none
  | _ => none

def matchDMY : List Char → Option (Nat × Nat × Nat)
  | a :: b :: '.' :: rest =>
    if isDigitCh a && isDigitCh b then
      match monthYear rest with
      | some (m, y) => some (digitVal a * 10 + digitVal b, m, y)
      | none => matchDMY1 (a :: b :: '.' :: rest)
    else matchDMY1 (a :: b :: '.' :: rest)
  | l => matchDMY1 l

/-- Model of `re.search(r"(\d{1,2})\.(\d{1,2})\.(\d{4})", s)`: leftmost
position where the pattern matches. -/
def search1 : List Char → Option (Nat × Nat × Nat)
  | [] => none
  | c :: t =>
    match matchDMY (c :: t) with
    | some r => some r
    | none => search1 t

/-- One-digit month followed by `\b`, for the step-2 pattern. -/
def monthB1 : List Char → Option Nat
  | a :: rest =>
    if isDigitCh a && boundaryAfterWord rest then some (digitVal a) else none
  | _ => none

/-- Month of `(\d{1,2})\b` (greedy two digits then boundary; a failed
boundary after two digits cannot be rescued by the one-digit
alternative, because the second digit is itself a word character). -/
def monthB : List Char → Option Nat
  | a :: b :: rest =>
    if isDigitCh a && isDigitCh b then
      if boundaryAfterWord rest then some (digitVal a * 10 + digitVal b) else none
    else monthB1 (a :: b :: rest)
  | l => monthB1 l

/-- Attempt of `(\d{1,2})\.(\d{1,2})\b` anchored at the current
position. -/
def matchDM1 : List Char → Option (Nat × Nat)
  | a :: '.' :: rest =>
    if isDigitCh a then (monthB rest).map fun m => (digitVal a, m) else none
  | _ => none

def matchDM : List Char → Option (Nat × Nat)
  | a :: b :: '.' :: rest =>
    if isDigitCh a && isDigitCh b then
      match monthB rest with
      | some m => some (digitVal a * 10 + digitVal b, m)
      | none => matchDM1 (a :: b :: '.' :: rest)
    else matchDM1 (a :: b :: '.' :: rest)
  | l => matchDM1 l

/-- Model of `re.search(r"(\d{1,2})\.(\d{1,2})\b", s)`. -/
def search2 : List Char → Option (Nat × Nat)
  | [] => none
  | c :: t =>
    match matchDM (c :: t) with
    | some r => some r
    | none => search2 t

/-- Model of `re.search(r"\b(20\d{2})\b", s)`, tracking the previous character
for the leading word boundary. -/
def yearScan : Option Char → List Char → Option Nat
  | prev, '2' :: '0' :: c :: d :: rest =>
    if boundaryBeforeWord prev && isDigitCh c && isDigitCh d && boundaryAfterWord rest then
      some (2000 + digitVal c * 10 + digitVal d)
    else yearScan (some '2') ('0' :: c :: d :: rest)
  | _, c :: t => yearScan (some c) t
  | _, [] => none

def searchYear (l : List Char) : Option Nat :=
  yearScan none l

/-- The German month-name table, in the source's insertion order (the
dict is iterated in that order, so an earlier entry found anywhere in
the string beats a later entry found earlier in the string). -/
def germanMonths : List (List Char × Nat) :=
  [("januar".data, 1), ("februar".data, 2), ("märz".data, 3), ("maerz".data, 3),
   ("april".data, 4), ("mai".data, 5), ("juni".data, 6), ("juli".data, 7),
   ("august".data, 8), ("september".data, 9), ("oktober".data, 10),
   ("november".data, 11), ("dezember".data, 12)]

/-- Model of `re.search(r"\b" + name + r"\b", s, re.IGNORECASE)`: position of the
first occurrence of `name` delimited by word boundaries. -/
def findNameGo (name : List Char) : Option Char → Nat → List Char → Option Nat
  | _, _, [] => none
  | prev, pos, c :: t =>
    if boundaryBeforeWord prev && ciPrefixB name (c :: t) &&
        boundaryAfterWord ((c :: t).drop name.length) then
      some pos
    else findNameGo name (some c) (pos + 1) t

/-- The month-name loop of step 3: first table entry (in table order)
that occurs in the string, with its match position. -/
def findMonthRes : List (List Char × Nat) → List Char → Option (Nat × Nat)
  | [], _ => none
  | (nm, num) :: rest, s =>
    match findNameGo nm none 0 s with
    | some pos => some (num, pos)
    | none => findMonthRes rest s

/-- Model of `re.finditer(r"\b(\d{1,2})\b", s)`: all standalone one- or
two-digit numbers with their positions, scanning left to right and
continuing after each match. -/
def numsGo (prev : Option Char) (pos : Nat) : List Char → List (Nat × Nat)
  | [] => []
  | c :: t =>
    if boundaryBeforeWord prev && isDigitCh c then
      match t with
      | c2 :: t2 =>
        if isDigitCh c2 then
          if boundaryAfterWord t2 then
            (pos, digitVal c * 10 + digitVal c2) :: numsGo (some c2) (pos + 2) t2
          else numsGo (some c) (pos + 1) (c2 :: t2)
        else if !pyIsWordChar c2 then
          (pos, digitVal c) :: numsGo (some c) (pos + 1) (c2 :: t2)
        else numsGo (some c) (pos + 1) (c2 :: t2)
      | [] => [(pos, digitVal c)]
    else numsGo (some c) (pos + 1) t

/-- Step 3/4 day choice: the last number before the month name, else the
first number in the string. -/
def dayChoice (nums : List (Nat × Nat)) (mpos : Nat) (n0 : Nat × Nat) : Nat :=
  match ((nums.filter fun pn => pn.1 < mpos).map fun pn => pn.2).getLast? with
  | some d => d
  | none => n0.2

/-- Model of `_get_monday_from_week_info_str` (main.py lines 281-354).  `today`
is the system date consulted by the fallback layers.  A `ValueError`
raised by a `date(...)` construction in step 1 or 2 propagates; in
step 3 it is caught and the function falls through to step 4. -/
def getMondayFromWeekInfoStr (dateStr : String) (today : PyDate) : Except String PyDate :=
  let s := stripL dateStr.data
  match search1 s with
  | some (d, m, y) => mkDate y m d
  | none =>
    match search2 s with
    | some (d, m) => mkDate ((searchYear s).getD today.year) m d
    | none =>
      let nums := numsGo none 0 s
      let year := (searchYear s).getD today.year
      let step3 : Option PyDate :=
        match findMonthRes germanMonths s, nums with
        | some (mnum, mpos), n0 :: _ =>
          match mkDate year mnum (dayChoice nums mpos n0) with
          | .ok d => some d
          | .error _ => none
        | _, _ => none
      match step3 with
      | some d => .ok d
      | none =>
        match nums with
        | [] => .error "Could not parse monday from week info"
        | n0 :: _ =>
          match mkDate today.year today.month n0.2 with
          | .ok d => .ok d
          | .error _ => .error "Could not parse monday from week info"

/-- The caller's use of the resolver in `generate_feed` (main.py lines
63-70): any exception from the resolver is caught and replaced by
Monday of the current system week,
`today - timedelta(days=today.weekday())`. -/
def generateFeedMonday (weekInfo : String) (today : PyDate) : PyDate :=
  match getMondayFromWeekInfoStr weekInfo today with
  | .ok d => d
  | .error _ => subDays today (pyWeekday today)

/-! ## HTML document trees -/

/-- A node of the parsed HTML tree: an element with a tag name and
ordered children, or a text node (`NavigableString`).  Attributes play
no role in the code under verification. -/
inductive Node where
  | elem : String → List Node → Node
  | text : String → Node

/-- Tag name of an element; text nodes have none. -/
def nodeName : Node → String
  | .elem n _ => n
  | .text _ => ""

/-- Child list; text nodes have no children. -/
def childrenOf : Node → List Node
  | .elem _ cs => cs
  | .text _ => []

mutual

/-- All descendant text-node strings in document order
(BeautifulSoup's `_all_strings`). -/
def stringsOfN : Node → List String
  | .text s => [s]
  | .elem _ cs => stringsOfL cs

/-- List version of `stringsOfN`. -/
def stringsOfL : List Node → List String
  | [] => []
  | x :: rest => stringsOfN x ++ stringsOfL rest

end

/-- Model of `tag.get_text(strip=True)`: concatenation of all descendant
strings, each stripped. -/
def getTextStrip (n : Node) : String :=
  String.join ((stringsOfN n).map stripStr)

/-- Model of `tag.get_text("\n", strip=True)`: the stripped, non-empty
descendant strings joined with a newline. -/
def getTextNlStrip (n : Node) : String :=
  String.intercalate "\n" (((stringsOfN n).map stripStr).filter fun s => s ≠ "")

mutual

/-- First element named `nm` in the subtree rooted at `x`, including
`x` itself, in document (preorder) order. -/
def findTagInN (nm : String) : Node → Option Node
  | .text _ => none
  | .elem n cs => if n = nm then some (.elem n cs) else findTagInL nm cs

/-- First element named `nm` among the subtrees of a node list;
`findTagInL nm (childrenOf t)` is BeautifulSoup's `t.find(nm)`. -/
def findTagInL (nm : String) : List Node → Option Node
  | [] => none
  | x :: rest =>
    match findTagInN nm x with
    | some r => some r
    | none => findTagInL nm rest

end

/-! ## Text Normalizer (`_normalize_soup`, main.py lines 152-191) -/

/-- The wrapper tags that `_normalize_soup` unwraps. -/
def isWrapperName (n : String) : Bool :=
  n = "div" || n = "span"

mutual

/-- Unwrapping pass on one node: a `div`/`span` element is replaced by
its (recursively unwrapped) children spliced into the parent; other
nodes keep their place. -/
def unwrapN : Node → List Node
  | .text s => [.text s]
  | .elem n cs => if isWrapperName n then unwrapL cs else [.elem n (unwrapL cs)]

/-- Unwrapping pass on a sibling list. -/
def unwrapL : List Node → List Node
  | [] => []
  | x :: rest => unwrapN x ++ unwrapL rest

end

mutual

/-- Model of `br.replace_with("\n")` applied throughout the tree: every `br`
element becomes the text node `"\n"`. -/
def replaceBrN : Node → Node
  | .text s => .text s
  | .elem n cs => if n = "br" then .text "\n" else .elem n (replaceBrL cs)

def replaceBrL : List Node → List Node
  | [] => []
  | x :: rest => replaceBrN x :: replaceBrL rest

end

/-- Suffix of the whitespace run after its last newline; used to model
the greedy `\s*\n+` of the newline-collapsing pattern. -/
def afterLastNL (ws : List Char) : List Char :=
  (ws.reverse.takeWhile fun c => c ≠ '\n').reverse

/-- Model of `re.sub(r"\n\s*\n+", "\n", s)`.  A match starts at a newline whose
following whitespace run contains another newline; the greedy
quantifiers extend it exactly to the last newline of that run, and
scanning resumes after the match. -/
def collapseNL : List Char → List Char
  | [] => []
  | c :: rest =>
    if c = '\n' then
      if '\n' ∈ rest.takeWhile pyIsSpace then
        '\n' :: collapseNL (afterLastNL (rest.takeWhile pyIsSpace) ++ rest.dropWhile pyIsSpace)
      else '\n' :: collapseNL rest
    else c :: collapseNL rest
termination_by l => l.length
decreasing_by
  · rename_i hmem
    have key : ∀ L : List Char, '\n' ∈ L →
        (L.takeWhile fun c => c ≠ '\n').length < L.length := by
      intro L hL
      induction L with
      | nil => cases hL
      | cons h t ih =>
        by_cases hp : h = '\n'
        · subst hp; simp
        · have hxt : '\n' ∈ t := by
            rcases List.mem_cons.mp hL with h' | h'
            · exact absurd h'.symm hp
            · exact h'
          have hph : (fun c => decide (c ≠ '\n')) h = true := by simp [hp]
          simp only [List.takeWhile_cons, hph, if_true, List.length_cons]
          exact Nat.succ_lt_succ (ih hxt)
    have main : ∀ X : List Char, '\n' ∈ X.takeWhile pyIsSpace →
        (afterLastNL (X.takeWhile pyIsSpace) ++ X.dropWhile pyIsSpace).length < X.length + 1 := by
      intro X hX
      have h1 : (afterLastNL (X.takeWhile pyIsSpace)).length < (X.takeWhile pyIsSpace).length := by
        unfold afterLastNL
        rw [List.length_reverse]
        have hk := key ((X.takeWhile pyIsSpace).reverse) (List.mem_reverse.mpr hX)
        rwa [List.length_reverse] at hk
      have h2 : (X.takeWhile pyIsSpace).length + (X.dropWhile pyIsSpace).length = X.length := by
        rw [← List.length_append, List.takeWhile_append_dropWhile]
      simp only [List.length_append]
      omega
    simpa using main _ hmem
  · simp
  · simp

/-- The per-text-node rewrite of the third normalizer pass:
`if "\n" in s: s.replace_with(re.sub(r"\n\s*\n+", "\n", s))`. -/
def collapseNStr (s : String) : String :=
  if '\n' ∈ s.data then String.mk (collapseNL s.data) else s

mutual

/-- Newline-collapsing pass over the tree (the pass only rewrites text
nodes, elements keep their structure). -/
def collapseTreeN : Node → Node
  | .text s => .text (collapseNStr s)
  | .elem n cs => .elem n (collapseTreeL cs)

def collapseTreeL : List Node → List Node
  | [] => []
  | x :: rest => collapseTreeN x :: collapseTreeL rest

end

/-- Model of `_normalize_soup` on the root's child list: unwrap `div`/`span`,
replace `br` with newline text, collapse newline runs in text nodes. -/
def normalizeSoup (roots : List Node) : List Node :=
  collapseTreeL (replaceBrL (unwrapL roots))

mutual

/-- No `div`/`span` element anywhere in the subtree. -/
def noWrapN : Node → Bool
  | .text _ => true
  | .elem n cs => !isWrapperName n && noWrapL cs

def noWrapL : List Node → Bool
  | [] => true
  | x :: rest => noWrapN x && noWrapL rest

end

mutual

/-- No `br` element anywhere in the subtree. -/
def noBrN : Node → Bool
  | .text _ => true
  | .elem n cs => n ≠ "br" && noBrL cs

def noBrL : List Node → Bool
  | [] => true
  | x :: rest => noBrN x && noBrL rest

end

/-! ## Weekday Partitioner (`_split_menu_per_weekday`, main.py lines 356-382) -/

/-- Table `german_weekdays` of the source, offset 0 = Montag. -/
def germanWeekdayName : Nat → String
  | 0 => "Montag"
  | 1 => "Dienstag"
  | 2 => "Mittwoch"
  | 3 => "Donnerstag"
  | 4 => "Freitag"
  | 5 => "Samstag"
  | 6 => "Sonntag"
  | _ => ""

/-- The sibling walk of `_split_menu_per_weekday`: `cur` is the
accumulator for the current weekday `idx`; a sibling whose stripped
text contains the next weekday's name closes the current bucket (and is
itself kept in no bucket); the trailing accumulator is flushed if
non-empty. -/
def splitGo : List Node → List Node → Nat → List (Nat × List Node)
  | [], cur, idx =>
    (match cur with
     | [] => []
     | _ => [(idx, cur)])
  | s :: rest, cur, idx =>
    if idx + 1 < 7 && substr (germanWeekdayName (idx + 1)).data (getTextStrip s).data then
      (idx, cur) :: splitGo rest [] (idx + 1)
    else splitGo rest (cur ++ [s]) idx

/-- Model of `_split_menu_per_weekday` applied to the following-sibling sequence
of the Montag anchor tag. -/
def splitMenuPerWeekday (siblings : List Node) : List (Nat × List Node) :=
  splitGo siblings [] 0

/-- Concatenation, in key order, of all bucket contents. -/
def bucketsUnion (m : List (Nat × List Node)) : List Node :=
  (m.map Prod.snd).flatten

/-- A sibling that triggers a weekday boundary: its stripped text
contains the weekday name of some offset 1-6. -/
def IsWeekdayBoundary (n : Node) : Prop :=
  ∃ j, 1 ≤ j ∧ j ≤ 6 ∧ substr (germanWeekdayName j).data (getTextStrip n).data = true

/-! ## Meal-List Locator (`_find_menu_in_current_weekday_content` and
`_extract_items_from_weekday_tags`, main.py lines 193-247) -/

/-- Leading characters removed by `^[•\-\*\s]*` (bullet, dash,
star, whitespace). -/
def bulletClass (c : Char) : Bool :=
  c = '•' || c = '-' || c = '*' || pyIsSpace c

/-- Cleaning of one extracted line:
`re.sub(r"^[•\-\*\s]*\d*\.*\s*", "", ln)` then
`re.sub(r"\s+", " ", ln)`. -/
def cleanLine (ln : List Char) : List Char :=
  collapseWsTo1
    ((((ln.dropWhile bulletClass).dropWhile isDigitCh).dropWhile fun c => c = '.').dropWhile
      pyIsSpace)

/-- The candidate meal lines contributed by one tag of the bucket. -/
def itemsOfTag (tag : Node) : List String :=
  match (getTextNlStrip tag).data with
  | [] => []
  | c :: t =>
    ((((splitLinesNl (c :: t)).map stripL).filter fun ln => ln ≠ []).map cleanLine).filterMap
      fun ln => if ln = [] then none else some (String.mk ln)

/-- Model of `_extract_items_from_weekday_tags` (main.py lines 193-213). -/
def extractItemsFromWeekdayTags (weekdayContent : List Node) : List String :=
  (weekdayContent.map itemsOfTag).flatten

/-- The primary scan of `_find_menu_in_current_weekday_content`: the
first bucket node owning a `ul` (itself or a descendant) whose first
`li` contains a `p`. -/
def findMenuPrimary : List Node → Option Node
  | [] => none
  | content :: rest =>
    match (if nodeName content = "ul" then some content
           else findTagInL "ul" (childrenOf content)) with
    | none => findMenuPrimary rest
    | some ul =>
      match findTagInL "li" (childrenOf ul) with
      | none => findMenuPrimary rest
      | some li =>
        match findTagInL "p" (childrenOf li) with
        | some _ => some ul
        | none => findMenuPrimary rest

/-- Model of `_find_menu_in_current_weekday_content` (main.py lines 215-247):
the primary structural scan, else a synthetic `ul` built from the
extracted text lines, else `None`. -/
def findMenuInCurrentWeekdayContent (weekdayContent : List Node) : Option Node :=
  match findMenuPrimary weekdayContent with
  | some ul => some ul
  | none =>
    match extractItemsFromWeekdayTags weekdayContent with
    | [] => none
    | it :: rest =>
      some (.elem "ul" ((it :: rest).map fun s => .elem "li" [.text s]))

/-! ## Feed assembly around the Wochenteller lookup (`generate_feed`,
main.py lines 74-81 and 117-128) -/

/-- State of the Python local variable `wochenteller` after the
`try/except` of lines 74-81: `some v` when `_parse_wochenteller`
returned `v` (itself an optional meal text), `none` when it raised and
the `except` branch only logged — the local is then still unbound. -/
def wochAfterTry (lookup : Except String (Option String)) : Option (Option String) :=
  match lookup with
  | .ok v => some v
  | .error _ => none

/-- The per-weekday loop of `generate_feed` restricted to what the
Wochenteller claim depends on: each weekday either has no located menu
(skipped) or a list of meal texts; after adding the day's meals the
code evaluates `if wochenteller:`, which raises `UnboundLocalError`
when the variable was never assigned. -/
def feedDaysLoop (woch : Option (Option String)) :
    List (Option (List String)) → Except String (List (String × String))
  | [] => .ok []
  | none :: rest => feedDaysLoop woch rest
  | some meals :: rest =>
    match woch with
    | none => .error "UnboundLocalError: local variable wochenteller referenced before assignment"
    | some w =>
      match feedDaysLoop (some w) rest with
      | .ok tailMeals =>
        .ok ((meals.map fun m => ("meal", m)) ++
          (match w with
           | some wt => [("wochenteller", wt)]
           | none => []) ++ tailMeals)
      | .error e => .error e

/-- The Wochenteller-relevant slice of `generate_feed`: run the lookup
under `try/except`, then process the weekday menus. -/
def generateFeedWochenteller (lookup : Except String (Option String))
    (dayMenus : List (Option (List String))) : Except String (List (String × String)) :=
  feedDaysLoop (wochAfterTry lookup) dayMenus

/-- Normal form established by `collapseNL`: no newline is followed,
within its whitespace run, by another newline. -/
def noDNL : List Char → Bool
  | [] => true
  | c :: rest =>
    (if c = '\n' then
       (if '\n' ∈ rest.takeWhile pyIsSpace then false else true)
     else true) && noDNL rest

/-! ## Helper lemmas: calendar arithmetic -/

theorem daysInMonth_pos (y m : Nat) (h1 : 1 ≤ m) (h2 : m ≤ 12) :
    1 ≤ daysInMonth y m := by
  interval_cases m <;> simp [daysInMonth] <;> omega

theorem daysBeforeMonth_succ (y m : Nat) (h1 : 1 ≤ m) (h2 : m ≤ 11) :
    daysBeforeMonth y (m + 1) = daysBeforeMonth y m + daysInMonth y m := by
  interval_cases m <;> simp [daysBeforeMonth, daysInMonth] <;> omega

theorem daysBeforeYear_succ (y : Nat) (h : 1 ≤ y) :
    daysBeforeYear (y + 1) = daysBeforeYear y + 365 + leapDay y := by
  have e1 : daysBeforeYear (y + 1) = 365 * y + y / 4 + y / 400 - y / 100 := by
    simp [daysBeforeYear]
  have e2 : daysBeforeYear y = 365 * (y - 1) + (y - 1) / 4 + (y - 1) / 400 - (y - 1) / 100 := rfl
  by_cases hl : isLeap y
  · have hld : leapDay y = 1 := by simp [leapDay, hl]
    unfold isLeap at hl
    simp only [Bool.and_eq_true, decide_eq_true_eq, Bool.or_eq_true, bne_iff_ne] at hl
    rw [e1, e2, hld]
    omega
  · have hld : leapDay y = 0 := by simp [leapDay, hl]
    unfold isLeap at hl
    simp only [Bool.and_eq_true, decide_eq_true_eq, Bool.or_eq_true, bne_iff_ne] at hl
    rw [e1, e2, hld]
    omega

theorem toOrdinal_def (d : PyDate) :
    toOrdinal d = daysBeforeYear d.year + daysBeforeMonth d.year d.month + d.day := rfl

theorem toOrdinal_pos (d : PyDate) (hv : ValidPyDate d) : 1 ≤ toOrdinal d := by
  obtain ⟨_, _, _, _, h5, _⟩ := hv
  rw [toOrdinal_def]
  omega

theorem prevDay_spec (d : PyDate) (hv : ValidPyDate d) (h2 : 2 ≤ toOrdinal d) :
    ValidPyDate (prevDay d) ∧ toOrdinal (prevDay d) + 1 = toOrdinal d := by
  obtain ⟨hy1, hy2, hm1, hm2, hd1, hd2⟩ := hv
  unfold prevDay
  by_cases hd : 2 ≤ d.day
  · rw [if_pos hd]
    refine ⟨⟨hy1, hy2, hm1, hm2, by show 1 ≤ d.day - 1; omega,
      by show d.day - 1 ≤ daysInMonth d.year d.month; omega⟩, ?_⟩
    have e1 : toOrdinal ⟨d.year, d.month, d.day - 1⟩ =
        daysBeforeYear d.year + daysBeforeMonth d.year d.month + (d.day - 1) := rfl
    rw [e1, toOrdinal_def]
    omega
  · rw [if_neg hd]
    by_cases hm : 2 ≤ d.month
    · rw [if_pos hm]
      have hsucc := daysBeforeMonth_succ d.year (d.month - 1) (by omega) (by omega)
      have heq : d.month - 1 + 1 = d.month := by omega
      rw [heq] at hsucc
      have hpos := daysInMonth_pos d.year (d.month - 1) (by omega) (by omega)
      refine ⟨⟨hy1, hy2, by show 1 ≤ d.month - 1; omega, by show d.month - 1 ≤ 12; omega,
        by show 1 ≤ daysInMonth d.year (d.month - 1); omega,
        by show daysInMonth d.year (d.month - 1) ≤ daysInMonth d.year (d.month - 1); omega⟩, ?_⟩
      have e1 : toOrdinal ⟨d.year, d.month - 1, daysInMonth d.year (d.month - 1)⟩ =
          daysBeforeYear d.year + daysBeforeMonth d.year (d.month - 1) +
            daysInMonth d.year (d.month - 1) := rfl
      rw [e1, toOrdinal_def]
      omega
    · rw [if_neg hm]
      have hm1' : d.month = 1 := by omega
      have hd1' : d.day = 1 := by omega
      have hord : toOrdinal d = daysBeforeYear d.year + 1 := by
        rw [toOrdinal_def, hm1', hd1']
        have e3 : daysBeforeMonth d.year 1 = 0 := rfl
        omega
      have hy : 2 ≤ d.year := by
        by_contra hy
        have hy1' : d.year = 1 := by omega
        have e4 : daysBeforeYear 1 = 0 := rfl
        rw [hord, hy1', e4] at h2
        omega
      have hsucc := daysBeforeYear_succ (d.year - 1) (by omega)
      have heq : d.year - 1 + 1 = d.year := by omega
      rw [heq] at hsucc
      refine ⟨⟨by show 1 ≤ d.year - 1; omega, by show d.year - 1 ≤ 9999; omega,
        by show (1 : Nat) ≤ 12; omega, by show (12 : Nat) ≤ 12; omega,
        by show (1 : Nat) ≤ 31; omega, by show (31 : Nat) ≤ daysInMonth (d.year - 1) 12; simp [daysInMonth]⟩, ?_⟩
      have e1 : toOrdinal ⟨d.year - 1, 12, 31⟩ =
          daysBeforeYear (d.year - 1) + daysBeforeMonth (d.year - 1) 12 + 31 := rfl
      have e2 : daysBeforeMonth (d.year - 1) 12 = 334 + leapDay (d.year - 1) := rfl
      rw [e1, e2, hord]
      omega

theorem subDays_spec (k : Nat) (d : PyDate) (hv : ValidPyDate d) (hk : k + 1 ≤ toOrdinal d) :
    ValidPyDate (subDays d k) ∧ toOrdinal (subDays d k) + k = toOrdinal d := by
  induction k generalizing d with
  | zero => simpa [subDays] using hv
  | succ n ih =>
    have hp := prevDay_spec d hv (by omega)
    have hr := ih (prevDay d) hp.1 (by omega)
    rw [subDays]
    exact ⟨hr.1, by omega⟩

theorem fallbackMonday_spec (t : PyDate) (hv : ValidPyDate t) :
    ValidPyDate (subDays t (pyWeekday t)) ∧ pyWeekday (subDays t (pyWeekday t)) = 0 := by
  have h1 := toOrdinal_pos t hv
  have hk : pyWeekday t + 1 ≤ toOrdinal t := by
    unfold pyWeekday; omega
  have hs := subDays_spec (pyWeekday t) t hv hk
  refine ⟨hs.1, ?_⟩
  have h2 := hs.2
  unfold pyWeekday at h2 ⊢
  omega

/-! ## Helper lemmas: the newline-collapsing rewrite -/

theorem collapseNL_append_no_nl (a b : List Char) (h : ∀ c ∈ a, c ≠ '\n') :
    collapseNL (a ++ b) = a ++ collapseNL b := by
  induction a with
  | nil => simp
  | cons c t ih =>
    have hc : ¬c = '\n' := h c (List.mem_cons_self c t)
    rw [List.cons_append, collapseNL, if_neg hc,
      ih fun x hx => h x (List.mem_cons_of_mem c hx)]
    rfl

theorem takeWhile_append_all (p : Char → Bool) (a b : List Char) (h : ∀ x ∈ a, p x = true) :
    (a ++ b).takeWhile p = a ++ b.takeWhile p := by
  induction a with
  | nil => simp
  | cons c t ih =>
    simp only [List.cons_append, List.takeWhile_cons, h c (List.mem_cons_self c t), if_true]
    rw [ih fun x hx => h x (List.mem_cons_of_mem c hx)]

theorem afterLastNL_subset (ws : List Char) : ∀ c ∈ afterLastNL ws, c ∈ ws := by
  intro c hc
  unfold afterLastNL at hc
  rw [List.mem_reverse] at hc
  exact List.mem_reverse.mp (( List.takeWhile_prefix _).sublist.subset hc)

theorem afterLastNL_no_nl (ws : List Char) : ∀ c ∈ afterLastNL ws, c ≠ '\n' := by
  intro c hc
  unfold afterLastNL at hc
  rw [List.mem_reverse] at hc
  simpa using List.mem_takeWhile_imp hc

theorem dropWhile_head_false (p : Char → Bool) (l : List Char) :
    ∀ c, (l.dropWhile p).head? = some c → p c = false := by
  induction l with
  | nil => intro c hc; simp at hc
  | cons a t ih =>
    intro c hc
    by_cases hp : p a
    · rw [List.dropWhile_cons, if_pos hp] at hc
      exact ih c hc
    · rw [List.dropWhile_cons, if_neg hp] at hc
      simp only [List.head?_cons, Option.some.injEq] at hc
      subst hc
      simpa using hp

theorem takeWhile_space_collapseNL_eq_nil (l : List Char)
    (h : ∀ c, l.head? = some c → pyIsSpace c = false) :
    (collapseNL l).takeWhile pyIsSpace = [] := by
  cases l with
  | nil => simp [collapseNL]
  | cons c t =>
    have hc := h c rfl
    have hcn : ¬c = '\n' := by
      intro he
      subst he
      simp [pyIsSpace] at hc
    rw [collapseNL, if_neg hcn]
    simp [List.takeWhile_cons, hc]

theorem noDNL_collapseNL (l : List Char) : noDNL (collapseNL l) = true := by
  induction l using collapseNL.induct with
  | case1 => simp [collapseNL, noDNL]
  | case2 rest hmem ih =>
    have e : collapseNL ('\n' :: rest) =
        '\n' :: collapseNL (afterLastNL (rest.takeWhile pyIsSpace) ++ rest.dropWhile pyIsSpace) := by
      rw [collapseNL]
      simp [hmem]
    have hA1 := afterLastNL_no_nl (rest.takeWhile pyIsSpace)
    have hA2 : ∀ c ∈ afterLastNL (rest.takeWhile pyIsSpace), pyIsSpace c = true := fun c hc =>
      List.mem_takeWhile_imp (afterLastNL_subset _ c hc)
    have ecopy := collapseNL_append_no_nl _ (rest.dropWhile pyIsSpace) hA1
    have enil := takeWhile_space_collapseNL_eq_nil (rest.dropWhile pyIsSpace)
      (dropWhile_head_false pyIsSpace rest)
    have hnot : '\n' ∉ (collapseNL (afterLastNL (rest.takeWhile pyIsSpace) ++
        rest.dropWhile pyIsSpace)).takeWhile pyIsSpace := by
      rw [ecopy, takeWhile_append_all pyIsSpace _ _ hA2, enil, List.append_nil]
      intro hmem'
      exact (hA1 _ hmem') rfl
    rw [e, noDNL]
    simp [hnot, ih]
  | case3 rest hmem ih =>
    have e : collapseNL ('\n' :: rest) = '\n' :: collapseNL rest := by
      rw [collapseNL]
      simp [hmem]
    have hsplit : rest.takeWhile pyIsSpace ++ rest.dropWhile pyIsSpace = rest :=
      List.takeWhile_append_dropWhile pyIsSpace rest
    have hA1 : ∀ c ∈ rest.takeWhile pyIsSpace, c ≠ '\n' := by
      intro c hc he
      subst he
      exact hmem hc
    have hA2 : ∀ c ∈ rest.takeWhile pyIsSpace, pyIsSpace c = true := fun c hc =>
      List.mem_takeWhile_imp hc
    have ecopy : collapseNL rest =
        rest.takeWhile pyIsSpace ++ collapseNL (rest.dropWhile pyIsSpace) := by
      conv_lhs => rw [← hsplit]
      exact collapseNL_append_no_nl _ _ hA1
    have enil := takeWhile_space_collapseNL_eq_nil (rest.dropWhile pyIsSpace)
      (dropWhile_head_false pyIsSpace rest)
    have hnot : '\n' ∉ (collapseNL rest).takeWhile pyIsSpace := by
      rw [ecopy, takeWhile_append_all pyIsSpace _ _ hA2, enil, List.append_nil]
      intro hmem'
      exact (hA1 _ hmem') rfl
    rw [e, noDNL]
    simp [hnot, ih]
  | case4 c rest hc ih =>
    rw [collapseNL, if_neg hc, noDNL]
    simp [hc, ih]

theorem collapseNL_of_noDNL (l : List Char) (h : noDNL l = true) : collapseNL l = l := by
  induction l using collapseNL.induct with
  | case1 => simp [collapseNL]
  | case2 rest hmem ih =>
    rw [noDNL] at h
    simp [hmem] at h
  | case3 rest hmem ih =>
    rw [noDNL] at h
    simp only [Bool.and_eq_true] at h
    rw [collapseNL]
    simp [hmem, ih h.2]
  | case4 c rest hc ih =>
    rw [noDNL] at h
    simp only [if_neg hc, Bool.true_and] at h
    rw [collapseNL, if_neg hc, ih h]

theorem collapseNL_idem (l : List Char) : collapseNL (collapseNL l) = collapseNL l :=
  collapseNL_of_noDNL _ (noDNL_collapseNL l)

theorem nl_mem_collapseNL (l : List Char) (h : '\n' ∈ l) : '\n' ∈ collapseNL l := by
  induction l using collapseNL.induct with
  | case1 => cases h
  | case2 rest hmem ih =>
    rw [collapseNL]
    simp [hmem]
  | case3 rest hmem ih =>
    rw [collapseNL]
    simp [hmem]
  | case4 c rest hc ih =>
    rw [collapseNL, if_neg hc]
    rcases List.mem_cons.mp h with he | ht
    · exact absurd he.symm hc
    · exact List.mem_cons_of_mem c (ih ht)

theorem collapseNStr_idem (s : String) : collapseNStr (collapseNStr s) = collapseNStr s := by
  by_cases h : '\n' ∈ s.data
  · have e1 : collapseNStr s = String.mk (collapseNL s.data) := by
      unfold collapseNStr
      rw [if_pos h]
    have h2 : '\n' ∈ (String.mk (collapseNL s.data)).data := nl_mem_collapseNL _ h
    rw [e1]
    unfold collapseNStr
    rw [if_pos h2]
    show String.mk (collapseNL (collapseNL s.data)) = String.mk (collapseNL s.data)
    rw [collapseNL_idem]
  · have e1 : collapseNStr s = s := by
      unfold collapseNStr
      rw [if_neg h]
    rw [e1, e1]

/-! ## Helper lemmas: the normalizer passes on trees -/

theorem noWrapL_append (a b : List Node) :
    noWrapL (a ++ b) = (noWrapL a && noWrapL b) := by
  induction a with
  | nil => simp [noWrapL]
  | cons x rest ih => simp [noWrapL, ih, Bool.and_assoc]

mutual

theorem noWrap_unwrapN (x : Node) : noWrapL (unwrapN x) = true := by
  match x with
  | .text s => simp [unwrapN, noWrapL, noWrapN]
  | .elem n cs =>
    rw [unwrapN]
    by_cases h : isWrapperName n
    · rw [if_pos h]
      exact noWrap_unwrapL cs
    · rw [if_neg h]
      simp [noWrapL, noWrapN, h, noWrap_unwrapL cs]

theorem noWrap_unwrapL (l : List Node) : noWrapL (unwrapL l) = true := by
  match l with
  | [] => simp [unwrapL, noWrapL]
  | x :: rest =>
    rw [unwrapL, noWrapL_append, noWrap_unwrapN x, noWrap_unwrapL rest]
    rfl

end

mutual

theorem unwrapN_id (x : Node) (h : noWrapN x = true) : unwrapN x = [x] := by
  match x with
  | .text s => rw [unwrapN]
  | .elem n cs =>
    rw [noWrapN] at h
    simp only [Bool.and_eq_true, Bool.not_eq_true'] at h
    rw [unwrapN, if_neg (by simp [h.1]), unwrapL_id cs h.2]

theorem unwrapL_id (l : List Node) (h : noWrapL l = true) : unwrapL l = l := by
  match l with
  | [] => rw [unwrapL]
  | x :: rest =>
    rw [noWrapL] at h
    simp only [Bool.and_eq_true] at h
    rw [unwrapL, unwrapN_id x h.1, unwrapL_id rest h.2]
    rfl

end

mutual

theorem noWrap_replaceBrN (x : Node) (h : noWrapN x = true) :
    noWrapN (replaceBrN x) = true := by
  match x with
  | .text s => rw [replaceBrN]; exact h
  | .elem n cs =>
    rw [noWrapN] at h
    simp only [Bool.and_eq_true] at h
    rw [replaceBrN]
    by_cases hbr : n = "br"
    · rw [if_pos hbr, noWrapN]
    · rw [if_neg hbr, noWrapN, h.1, noWrap_replaceBrL cs h.2]
      rfl

theorem noWrap_replaceBrL (l : List Node) (h : noWrapL l = true) :
    noWrapL (replaceBrL l) = true := by
  match l with
  | [] => rw [replaceBrL]; exact h
  | x :: rest =>
    rw [noWrapL] at h
    simp only [Bool.and_eq_true] at h
    rw [replaceBrL, noWrapL, noWrap_replaceBrN x h.1, noWrap_replaceBrL rest h.2]
    rfl

end

mutual

theorem noBr_replaceBrN (x : Node) : noBrN (replaceBrN x) = true := by
  match x with
  | .text s => rw [replaceBrN, noBrN]
  | .elem n cs =>
    rw [replaceBrN]
    by_cases hbr : n = "br"
    · rw [if_pos hbr, noBrN]
    · rw [if_neg hbr, noBrN, noBr_replaceBrL cs]
      simp [hbr]

theorem noBr_replaceBrL (l : List Node) : noBrL (replaceBrL l) = true := by
  match l with
  | [] => rw [replaceBrL, noBrL]
  | x :: rest =>
    rw [replaceBrL, noBrL, noBr_replaceBrN x, noBr_replaceBrL rest]
    rfl

end

mutual

theorem replaceBrN_id (x : Node) (h : noBrN x = true) : replaceBrN x = x := by
  match x with
  | .text s => rw [replaceBrN]
  | .elem n cs =>
    rw [noBrN] at h
    simp only [Bool.and_eq_true, decide_eq_true_eq] at h
    rw [replaceBrN, if_neg h.1, replaceBrL_id cs h.2]

theorem replaceBrL_id (l : List Node) (h : noBrL l = true) : replaceBrL l = l := by
  match l with
  | [] => rw [replaceBrL]
  | x :: rest =>
    rw [noBrL] at h
    simp only [Bool.and_eq_true] at h
    rw [replaceBrL, replaceBrN_id x h.1, replaceBrL_id rest h.2]

end

mutual

theorem noWrap_collapseTreeN (x : Node) (h : noWrapN x = true) :
    noWrapN (collapseTreeN x) = true := by
  match x with
  | .text s => rw [collapseTreeN, noWrapN]
  | .elem n cs =>
    rw [noWrapN] at h
    simp only [Bool.and_eq_true] at h
    rw [collapseTreeN, noWrapN, h.1, noWrap_collapseTreeL cs h.2]
    rfl

theorem noWrap_collapseTreeL (l : List Node) (h : noWrapL l = true) :
    noWrapL (collapseTreeL l) = true := by
  match l with
  | [] => rw [collapseTreeL]; exact h
  | x :: rest =>
    rw [noWrapL] at h
    simp only [Bool.and_eq_true] at h
    rw [collapseTreeL, noWrapL, noWrap_collapseTreeN x h.1, noWrap_collapseTreeL rest h.2]
    rfl

end

mutual

theorem noBr_collapseTreeN (x : Node) (h : noBrN x = true) :
    noBrN (collapseTreeN x) = true := by
  match x with
  | .text s => rw [collapseTreeN, noBrN]
  | .elem n cs =>
    rw [noBrN] at h
    simp only [Bool.and_eq_true] at h
    rw [collapseTreeN, noBrN, h.1, noBr_collapseTreeL cs h.2]
    rfl

theorem noBr_collapseTreeL (l : List Node) (h : noBrL l = true) :
    noBrL (collapseTreeL l) = true := by
  match l with
  | [] => rw [collapseTreeL]; exact h
  | x :: rest =>
    rw [noBrL] at h
    simp only [Bool.and_eq_true] at h
    rw [collapseTreeL, noBrL, noBr_collapseTreeN x h.1, noBr_collapseTreeL rest h.2]
    rfl

end

mutual

theorem collapseTreeN_idem (x : Node) : collapseTreeN (collapseTreeN x) = collapseTreeN x := by
  match x with
  | .text s => rw [collapseTreeN, collapseTreeN, collapseNStr_idem]
  | .elem n cs => rw [collapseTreeN, collapseTreeN, collapseTreeL_idem cs]

theorem collapseTreeL_idem (l : List Node) : collapseTreeL (collapseTreeL l) = collapseTreeL l := by
  match l with
  | [] => rfl
  | x :: rest =>
    rw [collapseTreeL, collapseTreeL, collapseTreeN_idem x, collapseTreeL_idem rest]

end

/-! ## Helper lemmas: the weekday partitioner -/

theorem splitGo_spec (siblings : List Node) : ∀ (cur : List Node) (idx : Nat), idx ≤ 6 →
    (∀ p ∈ splitGo siblings cur idx, p.1 ≤ 6) ∧
    (bucketsUnion (splitGo siblings cur idx)).Sublist (cur ++ siblings) ∧
    (∀ n ∈ cur ++ siblings,
      n ∈ bucketsUnion (splitGo siblings cur idx) ∨ IsWeekdayBoundary n) := by
  induction siblings with
  | nil =>
    intro cur idx hidx
    cases cur with
    | nil => simp [splitGo, bucketsUnion]
    | cons c cs =>
      have e : splitGo [] (c :: cs) idx = [(idx, c :: cs)] := rfl
      have ebu : bucketsUnion [(idx, c :: cs)] = c :: cs := by simp [bucketsUnion]
      refine ⟨?_, ?_, ?_⟩
      · intro p hp
        rw [e] at hp
        simp only [List.mem_singleton] at hp
        simp [hp, hidx]
      · rw [e, ebu]
        simpa using List.Sublist.refl (c :: cs)
      · intro n hn
        left
        rw [e, ebu]
        simpa using hn
  | cons s rest ih =>
    intro cur idx hidx
    rw [splitGo]
    by_cases hcond :
        (idx + 1 < 7 && substr (germanWeekdayName (idx + 1)).data (getTextStrip s).data) = true
    · rw [if_pos hcond]
      simp only [Bool.and_eq_true, decide_eq_true_eq] at hcond
      obtain ⟨ih1, ih2, ih3⟩ := ih [] (idx + 1) (by omega)
      have hbU : bucketsUnion ((idx, cur) :: splitGo rest [] (idx + 1)) =
          cur ++ bucketsUnion (splitGo rest [] (idx + 1)) := by
        simp [bucketsUnion]
      refine ⟨?_, ?_, ?_⟩
      · intro p hp
        rcases List.mem_cons.mp hp with he | hm
        · simp [he, hidx]
        · exact ih1 p hm
      · rw [hbU]
        have h2 : (bucketsUnion (splitGo rest [] (idx + 1))).Sublist rest := by
          simpa using ih2
        exact List.Sublist.append (List.Sublist.refl cur)
          (h2.trans (List.sublist_cons_self s rest))
      · intro n hn
        rcases List.mem_append.mp hn with hcur | hsr
        · left
          rw [hbU]
          exact List.mem_append_left _ hcur
        · rcases List.mem_cons.mp hsr with he | hr
          · right
            exact ⟨idx + 1, by omega, by omega, he ▸ hcond.2⟩
          · cases ih3 n (by simpa using hr) with
            | inl h =>
              left
              rw [hbU]
              exact List.mem_append_right _ h
            | inr h =>
              right
              exact h
    · rw [if_neg hcond]
      obtain ⟨ih1, ih2, ih3⟩ := ih (cur ++ [s]) idx hidx
      have heq : (cur ++ [s]) ++ rest = cur ++ s :: rest := by simp
      refine ⟨ih1, ?_, ?_⟩
      · rw [← heq]
        exact ih2
      · intro n hn
        apply ih3
        rw [heq]
        exact hn

/-! ## Helper lemmas: the meal-list locator -/

mutual

theorem findTagInN_name (nm : String) (x : Node) (r : Node) (h : findTagInN nm x = some r) :
    nodeName r = nm := by
  match x with
  | .text s => cases h
  | .elem n cs =>
    rw [findTagInN] at h
    by_cases hn : n = nm
    · rw [if_pos hn] at h
      cases h
      exact hn
    · rw [if_neg hn] at h
      exact findTagInL_name nm cs r h

theorem findTagInL_name (nm : String) (l : List Node) (r : Node) (h : findTagInL nm l = some r) :
    nodeName r = nm := by
  match l with
  | [] => cases h
  | x :: rest =>
    rw [findTagInL] at h
    cases hx : findTagInN nm x with
    | some r' =>
      rw [hx] at h
      cases h
      exact findTagInN_name nm x r hx
    | none =>
      rw [hx] at h
      exact findTagInL_name nm rest r h

end

theorem findMenuPrimary_spec (l : List Node) (u : Node) (h : findMenuPrimary l = some u) :
    nodeName u = "ul" ∧ (findTagInL "li" (childrenOf u)).isSome = true := by
  induction l with
  | nil => cases h
  | cons content rest ih =>
    rw [findMenuPrimary] at h
    cases hul : (if nodeName content = "ul" then some content
        else findTagInL "ul" (childrenOf content)) with
    | none =>
      simp only [hul] at h
      exact ih h
    | some ul =>
      simp only [hul] at h
      cases hli : findTagInL "li" (childrenOf ul) with
      | none =>
        simp only [hli] at h
        exact ih h
      | some li =>
        simp only [hli] at h
        cases hp : findTagInL "p" (childrenOf li) with
        | some q =>
          simp only [hp] at h
          cases h
          refine ⟨?_, ?_⟩
          · by_cases hc : nodeName content = "ul"
            · rw [if_pos hc] at hul
              cases hul
              exact hc
            · rw [if_neg hc] at hul
              exact findTagInL_name _ _ _ hul
          · rw [hli]
            rfl
        | none =>
          simp only [hp] at h
          exact ih h

theorem extractItems_ne_nil (bucket : List Node) :
    ∀ s ∈ extractItemsFromWeekdayTags bucket, s ≠ "" := by
  intro s hs
  unfold extractItemsFromWeekdayTags at hs
  rw [List.mem_flatten] at hs
  obtain ⟨li, hli, hsli⟩ := hs
  rw [List.mem_map] at hli
  obtain ⟨tag, htag, rfl⟩ := hli
  unfold itemsOfTag at hsli
  revert hsli
  match (getTextNlStrip tag).data with
  | [] => intro hsli; cases hsli
  | c :: t =>
    intro hsli
    rw [List.mem_filterMap] at hsli
    obtain ⟨ln, hln, hmk⟩ := hsli
    by_cases hnil : ln = []
    · rw [if_pos hnil] at hmk
      cases hmk
    · rw [if_neg hnil] at hmk
      cases hmk
      intro he
      apply hnil
      have hd := congrArg String.data he
      simpa using hd

/-! ## The claims -/

/-- Claim C1 (evidence of the code bug): for the Scenario-A WeekInfo
string `"Mo, 18.11. bis Fr, 22.11.2024"` the Date Resolver does not
return Monday 2024-11-18; step 1 matches the only `DD.MM.YYYY`
occurrence — the *end* of the advertised range — and the resolver
returns 2024-11-22, a Friday (weekday 4), for every system date. -/
theorem c1_scenario_a_returns_range_end :
    (∀ today : PyDate,
      getMondayFromWeekInfoStr "Mo, 18.11. bis Fr, 22.11.2024" today =
        .ok ⟨2024, 11, 22⟩) ∧
    pyWeekday ⟨2024, 11, 22⟩ = 4 ∧ pyWeekday ⟨2024, 11, 18⟩ = 0 :=
  ⟨fun _ => rfl, by decide, by decide⟩

/-- Claim C2 (evidence of the code bug): the caller accepts the
resolver's result for the Scenario-A string without any fallback,
although that result is not a Monday — the code never checks the
weekday of a successfully resolved date. -/
theorem c2_nonmonday_accepted_without_fallback :
    generateFeedMonday "Mo, 18.11. bis Fr, 22.11.2024" ⟨2024, 11, 18⟩ = ⟨2024, 11, 22⟩ ∧
    pyWeekday ⟨2024, 11, 22⟩ ≠ 0 :=
  ⟨rfl, by decide⟩

/-- Claim C3, counterexample: a sibling whose text contains the next
weekday name closes the current bucket but is itself stored in no
bucket, so the union of the buckets does not equal the sibling
sequence. -/
theorem c3_partitioner_counterexample :
    splitMenuPerWeekday [Node.elem "p" [Node.text "Dienstag"]] = [(0, [])] ∧
    bucketsUnion (splitMenuPerWeekday [Node.elem "p" [Node.text "Dienstag"]]) ≠
      [Node.elem "p" [Node.text "Dienstag"]] :=
  ⟨rfl, fun h => List.noConfusion h⟩

/-- Claim C3 (amended): the Weekday Partitioner produces buckets only
for offsets 0..6, the ordered union of all bucket contents is a
sublist of the original following-sibling sequence (order preserved,
no node duplicated, no node invented), and every sibling absent from
the union is a boundary node: its stripped text contains the weekday
name of some offset 1..6. -/
theorem c3_partitioner_amended (siblings : List Node) :
    (∀ p ∈ splitMenuPerWeekday siblings, p.1 ≤ 6) ∧
    (bucketsUnion (splitMenuPerWeekday siblings)).Sublist siblings ∧
    (∀ n ∈ siblings,
      n ∈ bucketsUnion (splitMenuPerWeekday siblings) ∨ IsWeekdayBoundary n) := by
  have h := splitGo_spec siblings [] 0 (by omega)
  simpa [splitMenuPerWeekday] using h

/-- Witness for the amended Claim C3 at a concrete sibling list. -/
theorem c3_partitioner_amended_witness :
    (bucketsUnion (splitMenuPerWeekday [Node.elem "p" [Node.text "Suppe"],
        Node.elem "p" [Node.text "Dienstag"]])).Sublist
      [Node.elem "p" [Node.text "Suppe"], Node.elem "p" [Node.text "Dienstag"]] ∧
    (Node.elem "p" [Node.text "Suppe"] ∈
        bucketsUnion (splitMenuPerWeekday [Node.elem "p" [Node.text "Suppe"],
          Node.elem "p" [Node.text "Dienstag"]]) ∨
      IsWeekdayBoundary (Node.elem "p" [Node.text "Suppe"])) :=
  ⟨(c3_partitioner_amended _).2.1,
   (c3_partitioner_amended _).2.2 _ (List.mem_cons_self _ _)⟩

/-- Claim C4 (evidence of the code bug): when `_parse_wochenteller`
raises, the `except` branch only logs and leaves the local variable
`wochenteller` unbound; the first weekday that has a menu then crashes
the run with `UnboundLocalError` at `if wochenteller:` instead of
continuing with the special omitted.  The second conjunct shows the
successful-lookup path for contrast. -/
theorem c4_wochenteller_failure_crashes_run :
    generateFeedWochenteller (.error "AttributeError") [some ["Suppe"]] =
      .error "UnboundLocalError: local variable wochenteller referenced before assignment" ∧
    generateFeedWochenteller (.ok (some "Gulasch")) [some ["Suppe"]] =
      .ok [("meal", "Suppe"), ("wochenteller", "Gulasch")] :=
  ⟨rfl, rfl⟩

/-- Claim C5, counterexample: a resolved date more than 7 days in the
future is accepted as is; no year is subtracted anywhere. -/
theorem c5_no_year_subtraction_counterexample :
    getMondayFromWeekInfoStr "Mo, 30.12.2030" ⟨2024, 1, 1⟩ = .ok ⟨2030, 12, 30⟩ ∧
    toOrdinal ⟨2024, 1, 1⟩ + 7 < toOrdinal ⟨2030, 12, 30⟩ ∧
    generateFeedMonday "Mo, 30.12.2030" ⟨2024, 1, 1⟩ = ⟨2030, 12, 30⟩ ∧
    (⟨2030, 12, 30⟩ : PyDate) ≠ ⟨2029, 12, 30⟩ :=
  ⟨rfl, by decide, rfl, by decide⟩

/-- Claim C5 (amended): this version performs no
more-than-7-days-in-the-future sanity check: whenever the resolver
succeeds, the caller accepts the resolved date unchanged even when it
lies more than 7 days after the fetch date. -/
theorem c5_no_future_correction (s : String) (today d : PyDate)
    (hok : getMondayFromWeekInfoStr s today = .ok d)
    (hfar : toOrdinal today + 7 < toOrdinal d) :
    generateFeedMonday s today = d := by
  unfold generateFeedMonday
  rw [hok]

/-- Witness for the amended Claim C5 at a concrete input. -/
theorem c5_no_future_correction_witness :
    getMondayFromWeekInfoStr "Mo, 30.12.2030" ⟨2024, 1, 2⟩ = .ok ⟨2030, 12, 30⟩ ∧
    toOrdinal (⟨2024, 1, 2⟩ : PyDate) + 7 < toOrdinal ⟨2030, 12, 30⟩ ∧
    generateFeedMonday "Mo, 30.12.2030" ⟨2024, 1, 2⟩ = ⟨2030, 12, 30⟩ :=
  ⟨rfl, by decide, c5_no_future_correction _ _ _ rfl (by decide)⟩

/-- Claim C6: on any Date Resolver failure (a raised parse error or an
invalid constructed date, which `mkDate` rejects exactly as the
`date(...)` constructor does), the caller falls back to
`today - timedelta(days=today.weekday())` — Monday of the current
system week — and continues totally; the fallback date has weekday 0. -/
theorem c6_fallback_is_current_week_monday (s : String) (today : PyDate) (e : String)
    (hv : ValidPyDate today)
    (herr : getMondayFromWeekInfoStr s today = .error e) :
    generateFeedMonday s today = subDays today (pyWeekday today) ∧
    pyWeekday (generateFeedMonday s today) = 0 := by
  have h1 : generateFeedMonday s today = subDays today (pyWeekday today) := by
    unfold generateFeedMonday
    rw [herr]
  refine ⟨h1, ?_⟩
  rw [h1]
  exact (fallbackMonday_spec today hv).2

/-- Witness for Claim C6 at a concrete unparseable input. -/
theorem c6_fallback_is_current_week_monday_witness :
    ValidPyDate ⟨2024, 11, 20⟩ ∧
    getMondayFromWeekInfoStr "Menüplan" ⟨2024, 11, 20⟩ =
      .error "Could not parse monday from week info" ∧
    generateFeedMonday "Menüplan" ⟨2024, 11, 20⟩ =
      subDays ⟨2024, 11, 20⟩ (pyWeekday ⟨2024, 11, 20⟩) ∧
    pyWeekday (generateFeedMonday "Menüplan" ⟨2024, 11, 20⟩) = 0 :=
  ⟨by decide, rfl,
   (c6_fallback_is_current_week_monday "Menüplan" ⟨2024, 11, 20⟩
     "Could not parse monday from week info" (by decide) rfl).1,
   (c6_fallback_is_current_week_monday "Menüplan" ⟨2024, 11, 20⟩
     "Could not parse monday from week info" (by decide) rfl).2⟩

/-- Claim C7: Scenario B — the Meal Text Parser maps
`"Gebratenes Hühnerbrustfilet (vegan/vegetarisch) A, C, G"` to the
name `"Gebratenes Hühnerbrustfilet"`, the category `Vegan`, and the
allergen codes A, C, G (the source represents the set as a list). -/
theorem c7_scenario_b :
    parseMealname "Gebratenes Hühnerbrustfilet (vegan/vegetarisch) A, C, G" =
      ("Gebratenes Hühnerbrustfilet", VEGAN, ["A", "C", "G"]) := by
  decide

/-- Claim C8: a meal text in which neither the trailing allergen-run
regex nor the parenthesized dietary-label regex matches is returned
with category Non-Vegetarian, no allergens, and the full trimmed text
(non-breaking spaces normalized) as its name — any parentheses in it
are left untouched. -/
theorem c8_plain_meal_unchanged (s : String)
    (hall : allergenSearch (stripL (replaceNbsp s.data)) = none)
    (hcat : categoryScan (stripL (replaceNbsp s.data)) = none) :
    parseMealname s = (String.mk (stripL (replaceNbsp s.data)), NON_VEGETERIAN, []) := by
  simp only [parseMealname, hall, parseMealAfterAllergen, hcat]

/-- Witness for Claim C8: Scenario C, `"Gulasch mit Knödel"`. -/
theorem c8_plain_meal_unchanged_witness :
    allergenSearch (stripL (replaceNbsp "Gulasch mit Knödel".data)) = none ∧
    categoryScan (stripL (replaceNbsp "Gulasch mit Knödel".data)) = none ∧
    parseMealname "Gulasch mit Knödel" = ("Gulasch mit Knödel", NON_VEGETERIAN, []) :=
  ⟨rfl, rfl, c8_plain_meal_unchanged _ rfl rfl⟩

/-- Claim C9: the Text Normalizer is idempotent — a second pass over an
already-normalized tree changes nothing; after one pass no `div`/`span`
element and no `br` element remains (the newline-collapsing rewrite is a
fixed point on its own output, `collapseNL_idem`). -/
theorem c9_normalizer_idempotent (roots : List Node) :
    normalizeSoup (normalizeSoup roots) = normalizeSoup roots ∧
    noWrapL (normalizeSoup roots) = true ∧
    noBrL (normalizeSoup roots) = true := by
  have hW0 := noWrap_unwrapL roots
  have hW1 := noWrap_replaceBrL _ hW0
  have hW2 : noWrapL (normalizeSoup roots) = true := noWrap_collapseTreeL _ hW1
  have hB1 := noBr_replaceBrL (unwrapL roots)
  have hB2 : noBrL (normalizeSoup roots) = true := noBr_collapseTreeL _ hB1
  refine ⟨?_, hW2, hB2⟩
  show collapseTreeL (replaceBrL (unwrapL (normalizeSoup roots))) = normalizeSoup roots
  rw [unwrapL_id _ hW2, replaceBrL_id _ hB2]
  show collapseTreeL (collapseTreeL (replaceBrL (unwrapL roots))) =
    collapseTreeL (replaceBrL (unwrapL roots))
  exact collapseTreeL_idem _

/-- Claim C10: whenever the Meal-List Locator returns a result, it is a
`ul` element containing at least one `li`; and when the result came
from the text fallback (no primary match), every child of the
synthetic `ul` is an `li` holding exactly one non-empty cleaned line,
so the caller's `find_all("li")` loop yields at least one meal. -/
theorem c10_locator_result_wellformed (bucket : List Node) (u : Node)
    (h : findMenuInCurrentWeekdayContent bucket = some u) :
    nodeName u = "ul" ∧ (findTagInL "li" (childrenOf u)).isSome = true ∧
    (findMenuPrimary bucket = none →
      ∀ c ∈ childrenOf u, ∃ s : String, c = Node.elem "li" [Node.text s] ∧ s ≠ "") := by
  unfold findMenuInCurrentWeekdayContent at h
  cases hprim : findMenuPrimary bucket with
  | some ul =>
    simp only [hprim] at h
    cases h
    have hs := findMenuPrimary_spec bucket u hprim
    refine ⟨hs.1, hs.2, ?_⟩
    intro hnone
    simp [hprim] at hnone
  | none =>
    simp only [hprim] at h
    cases hitems : extractItemsFromWeekdayTags bucket with
    | nil =>
      simp only [hitems] at h
      cases h
    | cons it rest =>
      simp only [hitems] at h
      cases h
      refine ⟨rfl, ?_, ?_⟩
      · show (findTagInL "li"
            ((it :: rest).map fun s => Node.elem "li" [Node.text s])).isSome = true
        simp [findTagInL, findTagInN]
      · intro _ c hc
        have hc' : c ∈ (it :: rest).map fun s => Node.elem "li" [Node.text s] := hc
        rw [List.mem_map] at hc'
        obtain ⟨s, hs, rfl⟩ := hc'
        refine ⟨s, rfl, ?_⟩
        refine extractItems_ne_nil bucket s ?_
        rw [hitems]
        exact hs

/-- Witness for Claim C10 at a concrete fallback bucket (Scenario D). -/
theorem c10_locator_result_wellformed_witness :
    nodeName (Node.elem "ul" [Node.elem "li" [Node.text "Suppe"],
      Node.elem "li" [Node.text "Hauptspeise A"]]) = "ul" ∧
    (∃ s : String, Node.elem "li" [Node.text "Suppe"] = Node.elem "li" [Node.text s] ∧
      s ≠ "") := by
  have h := c10_locator_result_wellformed
    [Node.elem "p" [Node.text "Suppe\nHauptspeise A"]]
    (Node.elem "ul" [Node.elem "li" [Node.text "Suppe"],
      Node.elem "li" [Node.text "Hauptspeise A"]])
    rfl
  exact ⟨h.1, h.2.2 rfl (Node.elem "li" [Node.text "Suppe"]) (List.mem_cons_self _ _)⟩
